import Mathlib

/-!
Verification of the numeric core of `based-utils`.

The Python modules `based_utils/calx/interpol.py` and `based_utils/colors.py`
are shallowly embedded below.  Conventions of the embedding:

* Python `float` values are modelled as exact rationals (`ℚ`); Python's `%`
  on floats is `pymod` (result carries the sign of the divisor), and
  `math.isclose` is `isclose` with its default tolerances.
* Code that raises is modelled with `Option`/`Except`: `none`/`Except.error`
  stands for a raised exception, so a `some`/`Except.ok` result also records
  that no exception escaped.
* The external `hsluv` package (`hex_to_hsluv`/`hsluv_to_hex`) and
  `math.log` are not part of the repository; they are abstracted as
  parameters (`HsluvConv`, `logVal`), with their documented domain checks
  (`math.log` raising on a non-positive argument) made explicit.
* Python strings are modelled as `List Char`; `str.lower` is mapped
  character-wise (the inputs of interest are ASCII hex strings).
* The generator `frange` contains an unbounded `while` loop, so it is
  embedded with explicit fuel: `none` means the loop did not finish within
  the given fuel, and termination is the statement that some fuel returns
  `some`.
-/

deriving instance DecidableEq for Except

namespace BasedUtils

/-- `trim(n, lower, upper) = min(max(lower, n), upper)` from `calx/interpol.py`. -/
def trim (n lower upper : ℚ) : ℚ :=
  min (max lower n) upper

/-- Python float `%`: for a nonzero divisor `y`, `x % y = x - y * floor (x / y)`,
so the result has the sign of `y`. -/
def pymod (x y : ℚ) : ℚ := x - y * (⌊x / y⌋ : ℚ)

/-- `math.isclose(a, b)` with the default `rel_tol = 1e-9`, `abs_tol = 0.0`:
`abs(a-b) <= max(rel_tol * max(abs(a), abs(b)), abs_tol)`. -/
def isclose (a b : ℚ) : Prop :=
  |a - b| ≤ max ((1 / 1000000000) * max |a| |b|) 0

instance (a b : ℚ) : Decidable (isclose a b) :=
  decidable_of_iff (|a - b| ≤ max ((1 / 1000000000) * max |a| |b|) 0) Iff.rfl

/-- `InterpolationBounds`: a linear bounds with fields `_start`, `_end`. -/
structure InterpolationBounds where
  start : ℚ
  end_ : ℚ
deriving DecidableEq

/-- The cached `_span` property: `end - start`. -/
def InterpolationBounds.span (b : InterpolationBounds) : ℚ := b.end_ - b.start

/-- `InterpolationBounds.interpolate`. -/
def InterpolationBounds.interpolate (b : InterpolationBounds) (f : ℚ) : ℚ :=
  b.start + b.span * f

/-- `InterpolationBounds.inverse_interpolate`; the Python
`try / except ZeroDivisionError: return 0.0` is the `span = 0` branch. -/
def InterpolationBounds.inverse_interpolate
    (b : InterpolationBounds) (n : ℚ) (inside : Bool) : ℚ :=
  if b.span = 0 then 0
  else if inside then trim ((n - b.start) / b.span) 0 1
  else (n - b.start) / b.span

/-- `CyclicInterpolationBounds` after construction: the (already phase-shifted)
`_start`, `_end` and the `_period`. -/
structure CyclicInterpolationBounds where
  start : ℚ
  end_ : ℚ
  period : ℚ
deriving DecidableEq

/-- The phase shift of `CyclicInterpolationBounds.__init__`:
`if abs(end - start) > period / 2: start += period if start < end else -period`. -/
def cyclicShift (s e period : ℚ) : ℚ :=
  if |e - s| > period / 2 then (if s < e then s + period else s - period) else s

/-- `CyclicInterpolationBounds.__init__`: reduce `start`, `end` modulo `period`,
then shift `start` by a whole period when `abs(end - start) > period / 2`.
`none` models the `ZeroDivisionError` that Python's `%` raises for a zero
period. -/
def mkCyclic (start end_ period : ℚ) : Option CyclicInterpolationBounds :=
  if period = 0 then none
  else some ⟨cyclicShift (pymod start period) (pymod end_ period) period,
    pymod end_ period, period⟩

/-- The linear bounds a cyclic bounds delegates to via `super()`. -/
def CyclicInterpolationBounds.lin (b : CyclicInterpolationBounds) : InterpolationBounds :=
  ⟨b.start, b.end_⟩

/-- `CyclicInterpolationBounds.inverse_interpolate`: reduce `n` modulo the
period, then delegate to the linear computation. -/
def CyclicInterpolationBounds.inverse_interpolate
    (b : CyclicInterpolationBounds) (n : ℚ) (inside : Bool) : ℚ :=
  b.lin.inverse_interpolate (pymod n b.period) inside

/-- Domain-checked `math.log(x, base)`.  Python raises `ValueError` for
`x ≤ 0` or `base ≤ 0` and `ZeroDivisionError` for `base = 1`; on the good
domain the numeric value is the abstract parameter `logVal`. -/
def pylog (logVal : ℚ → ℚ → ℚ) (x base : ℚ) : Option ℚ :=
  if x ≤ 0 ∨ base ≤ 0 ∨ base = 1 then none else some (logVal x base)

/-- `LogarithmicInterpolationBounds` after construction: `_start`, `_end`
already in log space, plus `_base`. -/
structure LogarithmicInterpolationBounds where
  start : ℚ
  end_ : ℚ
  base : ℚ
deriving DecidableEq

/-- `LogarithmicInterpolationBounds.__init__`: `log(start, base)` and
`log(end, base)` are computed before any field is assigned, so a domain
error (`none`) leaves no partially constructed instance. -/
def mkLogarithmic (logVal : ℚ → ℚ → ℚ) (start end_ base : ℚ) :
    Option LogarithmicInterpolationBounds :=
  match pylog logVal start base, pylog logVal end_ base with
  | some ls, some le => some ⟨ls, le, base⟩
  | _, _ => none

/-- `LogarithmicInterpolationBounds.inverse_interpolate`:
`super().inverse_interpolate(log(n, base), inside)`. -/
def LogarithmicInterpolationBounds.inverse_interpolate
    (logVal : ℚ → ℚ → ℚ) (b : LogarithmicInterpolationBounds)
    (n : ℚ) (inside : Bool) : Option ℚ :=
  (pylog logVal n b.base).map
    (fun ln => InterpolationBounds.inverse_interpolate ⟨b.start, b.end_⟩ ln inside)

/-- The `while n < e and not isclose(n, e)` loop of `frange`, with fuel;
`some t` is the list of values yielded by the loop, `none` means the loop
did not stop within `fuel` iterations. -/
def frangeLoop (step e : ℚ) : ℚ → ℕ → Option (List ℚ)
  | _, 0 => none
  | n, fuel + 1 =>
    if n < e ∧ ¬ isclose n e then
      (frangeLoop step e (n + step) fuel).map (fun t => n :: t)
    else some []

/-- `frange(step, start, end)` (both range arguments given): raises
(`none`) on `step = 0`, otherwise yields `start` and then the loop values.
`none` also covers a loop that does not finish within `fuel`. -/
def frange (step s e : ℚ) (fuel : ℕ) : Option (List ℚ) :=
  if step = 0 then none
  else (frangeLoop step e (s + step) fuel).map (fun t => s :: t)

/-- `fractions(n, inclusive)`: `0` first when inclusive, then `i / (n+1)` for
`i = 1..n` (Python `range(1, n+1)`), then `1` last when inclusive. -/
def fractions (n : ℕ) (inclusive : Bool) : List ℚ :=
  (if inclusive then [(0 : ℚ)] else []) ++
    (List.range' 1 n).map (fun i : ℕ => (i : ℚ) / ((n : ℚ) + 1)) ++
    (if inclusive then [(1 : ℚ)] else [])

/-- Character-wise `str.lower` (the strings of interest are ASCII). -/
def lowerChar (c : Char) : Char := c.toLower

/-- `rgb_hex.removeprefix("#")`. -/
def stripHash : List Char → List Char
  | '#' :: rest => rest
  | s => s

/-- `rgb_hex.removeprefix("#").lower()` — the normalisation at the top of
`_HSLuv.from_hex`. -/
def normHex (s : List Char) : List Char := (stripHash s).map lowerChar

/-- A well-formed hex digit (the grammar of §6 of the interface contract). -/
def IsHexDigit (c : Char) : Prop :=
  c.isDigit = true ∨ ('a' ≤ c ∧ c ≤ 'f') ∨ ('A' ≤ c ∧ c ≤ 'F')

instance : DecidablePred IsHexDigit := fun c =>
  decidable_of_iff (c.isDigit = true ∨ ('a' ≤ c ∧ c ≤ 'f') ∨ ('A' ≤ c ∧ c ≤ 'F')) Iff.rfl

/-- The length dispatch of `_HSLuv.from_hex`: the six hex digits handed to
`hex_to_hsluv` (without the leading `#`), or `none` for the `ValueError`
raised on any other length. -/
def expandHex : List Char → Option (List Char)
  | [c] => some [c, c, c, c, c, c]
  | [c1, c2] => some [c1, c2, c1, c2, c1, c2]
  | [r1, g1, b1] => some [r1, r1, g1, g1, b1, b1]
  | [r1, r2, g1, g2, b1, b2] => some [r1, r2, g1, g2, b1, b2]
  | _ => none

/-- The external `hsluv` package: `hex_to_hsluv` maps a `#`-prefixed hex
string to a `(hue, saturation, lightness)` triple, `hsluv_to_hex` is the
reverse direction.  Both are black boxes to this repository. -/
structure HsluvConv where
  hexToHsluv : List Char → ℚ × ℚ × ℚ
  hsluvToHex : ℚ × ℚ × ℚ → List Char

/-- `_HSLuv`: hue in degrees, saturation and lightness in percent. -/
structure HSLuv where
  hue : ℚ
  saturation : ℚ
  lightness : ℚ
deriving DecidableEq

/-- `_HSLuv.from_hex`: `Except.ok none` for a `None` input, `Except.error`
carries the normalised string of the `ValueError`; otherwise the expanded
six digits are handed (with the `#` restored) to `hex_to_hsluv`, whose
`(hue, saturation, lightness)` triple fills the `_HSLuv` fields. -/
def HSLuv.from_hex (conv : HsluvConv) :
    Option (List Char) → Except (List Char) (Option HSLuv)
  | none => Except.ok none
  | some s =>
    match expandHex (normHex s) with
    | none => Except.error (normHex s)
    | some rgb6 =>
      Except.ok (some ⟨(conv.hexToHsluv ('#' :: rgb6)).1,
        (conv.hexToHsluv ('#' :: rgb6)).2.1, (conv.hexToHsluv ('#' :: rgb6)).2.2⟩)

/-- `_HSLuv.hex`: `hsluv_to_hex((hue, saturation, lightness))[1:]`. -/
def HSLuv.hex (conv : HsluvConv) (h : HSLuv) : List Char :=
  (conv.hsluvToHex (h.hue, h.saturation, h.lightness)).drop 1

/-- `Color`: lightness, saturation, hue as ratios. -/
structure Color where
  lightness : ℚ
  saturation : ℚ
  hue : ℚ
deriving DecidableEq

/-- `Color.from_fields`: clamp lightness and saturation to `[0, 1]`, reduce
hue modulo `1`. -/
def Color.from_fields (lightness saturation hue : ℚ) : Color :=
  ⟨trim lightness 0 1, trim saturation 0 1, pymod hue 1⟩

/-- `Color.but_with`: replace each given field, keep the others, then
renormalise through `from_fields`. -/
def Color.but_with (c : Color) (lightness saturation hue : Option ℚ) : Color :=
  Color.from_fields (lightness.getD c.lightness) (saturation.getD c.saturation)
    (hue.getD c.hue)

/-- `Color.with_changed`: multiply lightness/saturation by the given factor,
add the given amount to hue. -/
def Color.with_changed (c : Color) (lightness saturation hue : Option ℚ) : Color :=
  c.but_with (lightness.map (fun f => c.lightness * f))
    (saturation.map (fun f => c.saturation * f))
    (hue.map (fun a => c.hue + a))

/-- `Color.contrasting_shade = but_with(lightness=(lightness + 0.5) % 1)`. -/
def Color.contrasting_shade (c : Color) : Color :=
  c.but_with (some (pymod (c.lightness + 1 / 2) 1)) none none

/-- `Color.contrasting_hue = with_changed(hue=0.5)`. -/
def Color.contrasting_hue (c : Color) : Color :=
  c.with_changed none none (some (1 / 2))

/-- `Color._from_hsluv`: rescale degrees/percent back to ratios;
`None` propagates. -/
def Color.from_hsluv : Option HSLuv → Option Color
  | none => none
  | some h => some ⟨h.lightness / 100, h.saturation / 100, h.hue / 360⟩

/-- `Color.from_hex`: `cls._from_hsluv(_HSLuv.from_hex(rgb_hex))`. -/
def Color.from_hex (conv : HsluvConv) (s : Option (List Char)) :
    Except (List Char) (Option Color) :=
  (HSLuv.from_hex conv s).map Color.from_hsluv

/-- The cached `Color._hsluv` property: ratios rescaled to degrees/percent. -/
def Color.hsluv (c : Color) : HSLuv :=
  ⟨c.hue * 360, c.saturation * 100, c.lightness * 100⟩

/-- The `Color.hex` property: `self._hsluv.hex`. -/
def Color.hex (conv : HsluvConv) (c : Color) : List Char :=
  c.hsluv.hex conv

/-- `RGB`: three byte-range integers. -/
structure RGB where
  red : ℕ
  green : ℕ
  blue : ℕ
deriving DecidableEq

/-- Python `f"{n:02x}"` for a byte value: lowercase hex, zero-padded to two
digits. -/
def byteHex (n : ℕ) : List Char :=
  let ds := Nat.toDigits 16 n
  if ds.length < 2 then '0' :: ds else ds

/-- `Color.from_rgb`: `None` propagates, otherwise a byte-to-hex round trip
through `from_hex`. -/
def Color.from_rgb (conv : HsluvConv) : Option RGB → Except (List Char) (Option Color)
  | none => Except.ok none
  | some rgb =>
    Color.from_hex conv (some (byteHex rgb.red ++ byteHex rgb.green ++ byteHex rgb.blue))

/-- A concrete instantiation of the black-box `hsluv` conversion, used to
evaluate the parametric theorems on explicit inputs: a finite table that is
a bijection on the strings exercised. -/
def wConv : HsluvConv where
  hexToHsluv := fun s =>
    if s = "#333333".toList then (10, 0, 0)
    else if s = "#030303".toList then (20, 0, 0)
    else if s = "#330033".toList then (30, 0, 0)
    else if s = "#00aaff".toList then (40, 0, 0)
    else (0, 0, 0)
  hsluvToHex := fun t =>
    if t = (10, 0, 0) then "#333333".toList
    else if t = (20, 0, 0) then "#030303".toList
    else if t = (30, 0, 0) then "#330033".toList
    else if t = (40, 0, 0) then "#00aaff".toList
    else []

/-! ## Helper lemmas -/

lemma pymod_nonneg (x : ℚ) {y : ℚ} (hy : 0 < y) : 0 ≤ pymod x y := by
  have h : (⌊x / y⌋ : ℚ) * y ≤ x := (le_div_iff₀ hy).mp (Int.floor_le (x / y))
  unfold pymod
  nlinarith [h]

lemma pymod_lt (x : ℚ) {y : ℚ} (hy : 0 < y) : pymod x y < y := by
  have h2 := Int.lt_floor_add_one (x / y)
  have h : x < ((⌊x / y⌋ : ℚ) + 1) * y := by
    calc x = (x / y) * y := by field_simp
    _ < ((⌊x / y⌋ : ℚ) + 1) * y := by exact mul_lt_mul_of_pos_right h2 hy
  unfold pymod
  nlinarith [h]

lemma pymod_one_eq_self {x : ℚ} (h0 : 0 ≤ x) (h1 : x < 1) : pymod x 1 = x := by
  unfold pymod
  rw [div_one, Int.floor_eq_zero_iff.mpr (Set.mem_Ico.mpr ⟨h0, h1⟩)]
  simp

lemma pymod_add_one (x : ℚ) : pymod (x + 1) 1 = pymod x 1 := by
  unfold pymod
  rw [div_one, div_one, Int.floor_add_one]
  push_cast
  ring

lemma pymod_half_half {x : ℚ} (h0 : 0 ≤ x) (h1 : x < 1) :
    pymod (pymod (x + 1 / 2) 1 + 1 / 2) 1 = x := by
  rcases lt_or_le x (1 / 2) with hx | hx
  · rw [show pymod (x + 1 / 2) 1 = x + 1 / 2 from pymod_one_eq_self (by linarith) (by linarith),
      show x + 1 / 2 + 1 / 2 = x + 1 by ring, pymod_add_one, pymod_one_eq_self h0 h1]
  · have h2 : pymod (x + 1 / 2) 1 = x - 1 / 2 := by
      rw [show x + 1 / 2 = (x - 1 / 2) + 1 by ring, pymod_add_one,
        pymod_one_eq_self (by linarith) (by linarith)]
    rw [h2, show x - 1 / 2 + 1 / 2 = x by ring, pymod_one_eq_self h0 h1]

lemma trim_eq_self {x : ℚ} (h0 : 0 ≤ x) (h1 : x ≤ 1) : trim x 0 1 = x := by
  unfold trim
  rw [max_eq_right h0, min_eq_left h1]

lemma frangeLoop_neg_none : ∀ (fuel : ℕ) (n : ℚ), n ≤ -1 →
    frangeLoop (-1) 1 n fuel = none := by
  intro fuel
  induction fuel with
  | zero => intro n _; rfl
  | succ fuel ih =>
    intro n hn
    have h1 : n < 1 := by linarith
    have h2 : ¬ isclose n 1 := by
      unfold isclose
      rw [not_le]
      have ha : |n - 1| = 1 - n := by
        rw [abs_of_nonpos (by linarith)]
        ring
      have hb : |n| = -n := abs_of_neg (by linarith)
      rw [ha, hb, abs_one, max_eq_left (by linarith : (1 : ℚ) ≤ -n)]
      apply max_lt <;> linarith
    rw [frangeLoop, if_pos ⟨h1, h2⟩, ih (n + -1) (by linarith)]
    rfl

lemma frangeLoop_spec (step e : ℚ) :
    ∀ (fuel : ℕ) (n : ℚ) (t : List ℚ), frangeLoop step e n fuel = some t →
      (∀ (i : ℕ) (x : ℚ), t[i]? = some x →
        x = n + i * step ∧ x < e ∧ ¬ isclose x e)
      ∧ ¬ ((n + t.length * step) < e ∧ ¬ isclose (n + t.length * step) e) := by
  intro fuel
  induction fuel with
  | zero => intro n t h; exact Option.noConfusion h
  | succ fuel ih =>
    intro n t h
    rw [frangeLoop] at h
    by_cases hc : n < e ∧ ¬ isclose n e
    · rw [if_pos hc] at h
      rcases hrec : frangeLoop step e (n + step) fuel with _ | t'
      · rw [hrec] at h
        exact Option.noConfusion h
      · rw [hrec] at h
        simp only [Option.map_some', Option.some.injEq] at h
        subst h
        obtain ⟨hel, hstop⟩ := ih (n + step) t' hrec
        constructor
        · intro i x hx
          cases i with
          | zero =>
            rw [List.getElem?_cons_zero, Option.some.injEq] at hx
            subst hx
            exact ⟨by push_cast; ring, hc.1, hc.2⟩
          | succ i =>
            rw [List.getElem?_cons_succ] at hx
            obtain ⟨h1, h2, h3⟩ := hel i x hx
            refine ⟨?_, h2, h3⟩
            rw [h1]
            push_cast
            ring
        · rw [List.length_cons,
            show ((t'.length + 1 : ℕ) : ℚ) = (t'.length : ℚ) + 1 from by push_cast; ring,
            show n + ((t'.length : ℚ) + 1) * step = (n + step) + (t'.length : ℚ) * step
              from by ring]
          exact hstop
    · rw [if_neg hc] at h
      simp only [Option.some.injEq] at h
      subst h
      constructor
      · intro i x hx
        rw [List.getElem?_nil] at hx
        exact Option.noConfusion hx
      · simpa using hc

lemma range'_getElem? : ∀ (n s i : ℕ), (List.range' s n)[i]? = if i < n then some (s + i) else none := by
  intro n
  induction n with
  | zero => intro s i; simp [List.range']
  | succ n ih =>
    intro s i
    rw [List.range'_succ]
    cases i with
    | zero => simp
    | succ i =>
      rw [List.getElem?_cons_succ, ih (s + 1) i]
      by_cases hi : i < n
      · rw [if_pos hi, if_pos (by omega)]
        congr 1
        omega
      · rw [if_neg hi, if_neg (by omega)]

lemma fractions_false_eq (n : ℕ) :
    fractions n false
      = (List.range' 1 n).map (fun i : ℕ => (i : ℚ) / ((n : ℚ) + 1)) := by
  unfold fractions
  simp

lemma expandHex_len6 {t : List Char} (h : t.length = 6) : expandHex t = some t := by
  rcases t with _ | ⟨a, _ | ⟨b, _ | ⟨c, _ | ⟨d, _ | ⟨e, _ | ⟨f, _ | ⟨g, t⟩⟩⟩⟩⟩⟩⟩ <;>
    first
      | rfl
      | (simp only [List.length] at h; omega)

lemma expandHex_badlen {t : List Char} (h : t.length ∉ ([1, 2, 3, 6] : List ℕ)) :
    expandHex t = none := by
  rcases t with _ | ⟨a, _ | ⟨b, _ | ⟨c, _ | ⟨d, _ | ⟨e, _ | ⟨f, _ | ⟨g, t⟩⟩⟩⟩⟩⟩⟩ <;>
    first
      | rfl
      | simp at h

lemma from_hex_expand (conv : HsluvConv) (s t6 : List Char)
    (hexp : expandHex (normHex s) = some t6)
    (hrt : conv.hsluvToHex (conv.hexToHsluv ('#' :: t6)) = '#' :: t6) :
    ∃ c, Color.from_hex conv (some s) = Except.ok (some c)
      ∧ Color.hex conv c = t6 := by
  rcases htriple : conv.hexToHsluv ('#' :: t6) with ⟨hu, sa, li⟩
  refine ⟨⟨li / 100, sa / 100, hu / 360⟩, ?_, ?_⟩
  · unfold Color.from_hex HSLuv.from_hex
    dsimp only
    rw [hexp]
    simp only [htriple]
    rfl
  · unfold Color.hex HSLuv.hex Color.hsluv
    dsimp only
    rw [div_mul_cancel₀ _ (by norm_num : (360 : ℚ) ≠ 0),
      div_mul_cancel₀ _ (by norm_num : (100 : ℚ) ≠ 0),
      div_mul_cancel₀ _ (by norm_num : (100 : ℚ) ≠ 0),
      show ((hu, sa, li) : ℚ × ℚ × ℚ) = conv.hexToHsluv ('#' :: t6) from htriple.symm,
      hrt]
    rfl

lemma contrasting_shade_eq {l s h : ℚ} (h0s : 0 ≤ s) (h1s : s ≤ 1)
    (h0h : 0 ≤ h) (h1h : h < 1) :
    Color.contrasting_shade ⟨l, s, h⟩ = ⟨pymod (l + 1 / 2) 1, s, h⟩ := by
  unfold Color.contrasting_shade Color.but_with Color.from_fields
  simp only [Option.getD_some, Option.getD_none]
  congr 1
  · exact trim_eq_self (pymod_nonneg _ one_pos) (le_of_lt (pymod_lt _ one_pos))
  · exact trim_eq_self h0s h1s
  · exact pymod_one_eq_self h0h h1h

lemma contrasting_hue_eq {l s h : ℚ} (h0l : 0 ≤ l) (h1l : l ≤ 1)
    (h0s : 0 ≤ s) (h1s : s ≤ 1) :
    Color.contrasting_hue ⟨l, s, h⟩ = ⟨l, s, pymod (h + 1 / 2) 1⟩ := by
  unfold Color.contrasting_hue Color.with_changed Color.but_with Color.from_fields
  simp only [Option.map_some', Option.map_none', Option.getD_some, Option.getD_none]
  congr 1
  · exact trim_eq_self h0l h1l
  · exact trim_eq_self h0s h1s

/-! ## Claims -/

/-- C1 counterexample: the claim quantifies over every `period`, but for the
negative period `-1` with `start = end = 0` the constructed instance has
`start = 1`, `end = 0`, and `|end - start| = 1` is not `≤ period / 2 = -1/2`:
the shortest-arc invariant fails as stated. -/
theorem C1_shortest_arc_counterexample :
    ∃ b, mkCyclic 0 0 (-1) = some b ∧ ¬ (|b.end_ - b.start| ≤ b.period / 2) :=
  ⟨⟨1, 0, -1⟩, by norm_num [mkCyclic, cyclicShift, pymod],
    by norm_num [abs_of_nonpos]⟩

/-- C1 (amended): for every `start`, `end` and every positive `period`,
the `CyclicInterpolationBounds` built by the constructor — reduce `start`
and `end` modulo `period`, then shift `start` by one whole period when
needed — satisfies the shortest-arc invariant
`|normalizedEnd - normalizedStart| ≤ period / 2`. -/
theorem C1_shortest_arc (start end_ period : ℚ) (hp : 0 < period)
    (b : CyclicInterpolationBounds) (hb : mkCyclic start end_ period = some b) :
    |b.end_ - b.start| ≤ b.period / 2 := by
  unfold mkCyclic at hb
  rw [if_neg hp.ne'] at hb
  simp only [Option.some.injEq] at hb
  subst hb
  dsimp only
  set s := pymod start period with hs
  set e := pymod end_ period with he
  have hs0 : 0 ≤ s := pymod_nonneg _ hp
  have hs1 : s < period := pymod_lt _ hp
  have he0 : 0 ≤ e := pymod_nonneg _ hp
  have he1 : e < period := pymod_lt _ hp
  unfold cyclicShift
  split_ifs with h1 h2
  · have hd : e - s > period / 2 := by
      rcases abs_cases (e - s) with ⟨hh, _⟩ | ⟨hh, hneg⟩
      · rw [hh] at h1
        exact h1
      · linarith
    rw [abs_le]
    constructor <;> linarith
  · have hd : s - e > period / 2 := by
      rcases abs_cases (e - s) with ⟨hh, hpos⟩ | ⟨hh, _⟩
      · have : e ≤ s := le_of_not_lt h2
        have : e - s ≤ 0 := by linarith
        linarith
      · linarith
    rw [abs_le]
    constructor <;> linarith
  · exact not_lt.mp h1

/-- C1 witness: at `start = 0`, `end = 3/4`, `period = 1` the constructor
shifts `start` to `1` and the invariant `|3/4 - 1| ≤ 1/2` holds. -/
theorem C1_shortest_arc_witness :
    (0 : ℚ) < 1 ∧ |(3 / 4 : ℚ) - 1| ≤ (1 : ℚ) / 2 :=
  ⟨by norm_num, C1_shortest_arc 0 (3 / 4) 1 (by norm_num) ⟨1, 3 / 4, 1⟩
    (by norm_num [mkCyclic, cyclicShift, pymod, abs_of_nonneg])⟩

/-- C6: for a linear bounds with `span = 0`, and for a constructed cyclic
bounds with `span = 0`, `inverse_interpolate` returns `0` for every input
`n` and either value of `inside` (the zero-division is caught, no error
escapes: the result is an ordinary value, not an exception). -/
theorem C6_degenerate_span :
    (∀ (b : InterpolationBounds), b.span = 0 →
      ∀ (n : ℚ) (inside : Bool), b.inverse_interpolate n inside = 0)
    ∧ (∀ (start end_ period : ℚ) (b : CyclicInterpolationBounds),
      mkCyclic start end_ period = some b → b.lin.span = 0 →
      ∀ (n : ℚ) (inside : Bool), b.inverse_interpolate n inside = 0) := by
  constructor
  · intro b h n inside
    unfold InterpolationBounds.inverse_interpolate
    rw [if_pos h]
  · intro start end_ period b _ h n inside
    unfold CyclicInterpolationBounds.inverse_interpolate
      InterpolationBounds.inverse_interpolate
    rw [if_pos h]

/-- C6 witness: concrete zero-width linear and cyclic bounds. -/
theorem C6_degenerate_span_witness :
    InterpolationBounds.inverse_interpolate ⟨3, 3⟩ 9 false = 0
    ∧ CyclicInterpolationBounds.inverse_interpolate ⟨2, 2, 5⟩ 7 true = 0 :=
  ⟨C6_degenerate_span.1 ⟨3, 3⟩ (by norm_num [InterpolationBounds.span]) 9 false,
   C6_degenerate_span.2 2 2 5 ⟨2, 2, 5⟩
     (by norm_num [mkCyclic, cyclicShift, pymod])
     (by norm_num [CyclicInterpolationBounds.lin, InterpolationBounds.span]) 7 true⟩

/-- C7: logarithmic bounds fail on non-positive inputs at the call that
detects them: construction with `start ≤ 0` or `end ≤ 0` yields no
(partially constructed) instance, and `inverse_interpolate` with `n ≤ 0`
fails, for every abstract value of the external logarithm. -/
theorem C7_log_domain (logVal : ℚ → ℚ → ℚ) :
    (∀ start end_ base : ℚ, (start ≤ 0 ∨ end_ ≤ 0) →
      mkLogarithmic logVal start end_ base = none)
    ∧ (∀ (b : LogarithmicInterpolationBounds) (n : ℚ) (inside : Bool), n ≤ 0 →
      b.inverse_interpolate logVal n inside = none) := by
  constructor
  · intro start end_ base h
    rcases h with h | h
    · have hs : pylog logVal start base = none := by
        unfold pylog
        rw [if_pos (Or.inl h)]
      unfold mkLogarithmic
      rw [hs]
    · have he : pylog logVal end_ base = none := by
        unfold pylog
        rw [if_pos (Or.inl h)]
      unfold mkLogarithmic
      rw [he]
      cases pylog logVal start base <;> rfl
  · intro b n inside h
    unfold LogarithmicInterpolationBounds.inverse_interpolate
    have hn : pylog logVal n b.base = none := by
      unfold pylog
      rw [if_pos (Or.inl h)]
    rw [hn]
    rfl

/-- C7 witness: a negative start refuses construction; a negative `n`
refuses inversion. -/
theorem C7_log_domain_witness :
    mkLogarithmic (fun _ _ => (0 : ℚ)) (-1) 5 10 = none
    ∧ LogarithmicInterpolationBounds.inverse_interpolate (fun _ _ => (0 : ℚ))
      ⟨1, 2, 3⟩ (-5) true = none :=
  ⟨(C7_log_domain _).1 (-1) 5 10 (Or.inl (by norm_num)),
   (C7_log_domain _).2 ⟨1, 2, 3⟩ (-5) true (by norm_num)⟩

/-- C10: a `None` input to `Color.from_hex` and to `Color.from_rgb`
propagates as a `None` result without raising any error, whatever the
external conversion does. -/
theorem C10_none_propagation (conv : HsluvConv) :
    Color.from_hex conv none = Except.ok none
    ∧ Color.from_rgb conv none = Except.ok none :=
  ⟨rfl, rfl⟩

/-- C4 counterexample: for `step = -1`, `start = 0`, `end = 1` (a step whose
sign is inconsistent with the direction from start to end), the generator
does not yield a finite sequence at all: no amount of fuel makes the loop
terminate, so it never produces `[start]`. -/
theorem C4_inconsistent_step_counterexample :
    ¬ ∃ (fuel : ℕ) (l : List ℚ), frange (-1) 0 1 fuel = some l := by
  rintro ⟨fuel, l, h⟩
  unfold frange at h
  rw [if_neg (by norm_num : (-1 : ℚ) ≠ 0),
    frangeLoop_neg_none fuel (0 + -1) (by norm_num)] at h
  exact Option.noConfusion h

/-- C4 (amended): an inconsistent step sign does not always give an empty
tail.  When `step > 0` and `end < start`, the sequence is exactly `[start]`
(an empty tail after the initial element, for any positive fuel); but when
`step < 0` and `start < end` the loop can run forever — at
`step = -1, start = 0, end = 1` no fuel suffices. -/
theorem C4_inconsistent_step :
    (∀ step s e : ℚ, 0 < step → e < s → ∀ fuel : ℕ,
      frange step s e (fuel + 1) = some [s])
    ∧ (∀ fuel : ℕ, frange (-1) 0 1 fuel = none) := by
  constructor
  · intro step s e hstep hlt fuel
    have hc : ¬ ((s + step) < e ∧ ¬ isclose (s + step) e) := by
      intro hcc
      have := hcc.1
      linarith
    unfold frange
    rw [if_neg hstep.ne', frangeLoop, if_neg hc]
    rfl
  · intro fuel
    unfold frange
    rw [if_neg (by norm_num : (-1 : ℚ) ≠ 0),
      frangeLoop_neg_none fuel (0 + -1) (by norm_num)]
    rfl

/-- C4 witness: `frange 1 5 3` yields exactly `[5]`, and with `step = -1`
from `0` to `1` even fuel `7` produces no finished sequence. -/
theorem C4_inconsistent_step_witness :
    frange 1 5 3 1 = some [5] ∧ frange (-1) 0 1 7 = none :=
  ⟨C4_inconsistent_step.1 1 5 3 (by norm_num) (by norm_num) 0,
   C4_inconsistent_step.2 7⟩

/-- C8: a finished `frange step start end` run yields `start` first; every
yielded element is `start + i * step`; every element after the first was
yielded only while strictly below `end` and not within `math.isclose`
tolerance of `end`; the run stops exactly when that condition first fails;
and the two fencepost examples evaluate to the exact lists of the claim. -/
theorem C8_stepped_range :
    (∀ (step s e : ℚ) (fuel : ℕ) (l : List ℚ), frange step s e fuel = some l →
      l.head? = some s
      ∧ (∀ (i : ℕ) (x : ℚ), l[i]? = some x → x = s + i * step)
      ∧ (∀ (i : ℕ) (x : ℚ), l[i]? = some x → i ≠ 0 → x < e ∧ ¬ isclose x e)
      ∧ ¬ ((s + l.length * step) < e ∧ ¬ isclose (s + l.length * step) e))
    ∧ frange (13 / 100) 0 (51 / 100) 10 = some [0, 13 / 100, 26 / 100, 39 / 100]
    ∧ frange (13 / 100) 0 (53 / 100) 10
      = some [0, 13 / 100, 26 / 100, 39 / 100, 52 / 100] := by
  refine ⟨?_, ?_, ?_⟩
  · intro step s e fuel l h
    unfold frange at h
    by_cases hz : step = 0
    · rw [if_pos hz] at h
      exact Option.noConfusion h
    rw [if_neg hz] at h
    rcases hrec : frangeLoop step e (s + step) fuel with _ | t'
    · rw [hrec] at h
      exact Option.noConfusion h
    rw [hrec] at h
    simp only [Option.map_some', Option.some.injEq] at h
    subst h
    obtain ⟨hel, hstop⟩ := frangeLoop_spec step e fuel (s + step) t' hrec
    refine ⟨rfl, ?_, ?_, ?_⟩
    · intro i x hx
      cases i with
      | zero =>
        rw [List.getElem?_cons_zero, Option.some.injEq] at hx
        subst hx
        push_cast
        ring
      | succ i =>
        rw [List.getElem?_cons_succ] at hx
        obtain ⟨h1, _, _⟩ := hel i x hx
        rw [h1]
        push_cast
        ring
    · intro i x hx hi
      cases i with
      | zero => exact absurd rfl hi
      | succ i =>
        rw [List.getElem?_cons_succ] at hx
        obtain ⟨_, h2, h3⟩ := hel i x hx
        exact ⟨h2, h3⟩
    · rw [List.length_cons,
        show ((t'.length + 1 : ℕ) : ℚ) = (t'.length : ℚ) + 1 from by push_cast; ring,
        show s + ((t'.length : ℚ) + 1) * step = (s + step) + (t'.length : ℚ) * step
          from by ring]
      exact hstop
  · norm_num [frange, frangeLoop, isclose, abs_of_nonneg, max_def]
  · norm_num [frange, frangeLoop, isclose, abs_of_nonneg, max_def]

/-- C8 witness: the first fencepost list starts at `0` and its fourth
element is `0 + 3 * (13/100)`. -/
theorem C8_stepped_range_witness :
    ([0, 13 / 100, 26 / 100, 39 / 100] : List ℚ).head? = some 0
    ∧ (39 / 100 : ℚ) = 0 + ((3 : ℕ) : ℚ) * (13 / 100) := by
  obtain ⟨hh, hel, -, -⟩ := C8_stepped_range.1 (13 / 100) 0 (51 / 100) 10
    [0, 13 / 100, 26 / 100, 39 / 100]
    (by norm_num [frange, frangeLoop, isclose, abs_of_nonneg, max_def])
  exact ⟨hh, hel 3 (39 / 100) rfl⟩

/-- C9: for every `n`, `fractions n` (non-inclusive) has exactly `n`
elements, its `i`-th element is `(i+1)/(n+1)` (i.e. the values `i/(n+1)`
for `i = 1..n`), it is strictly increasing and lies strictly inside
`(0, 1)`; the inclusive variant prepends `0` and appends `1`; and the two
concrete examples of the claim evaluate exactly. -/
theorem C9_fractions :
    (∀ n : ℕ,
      (fractions n false).length = n
      ∧ (∀ (i : ℕ) (x : ℚ), (fractions n false)[i]? = some x →
          x = ((i : ℚ) + 1) / ((n : ℚ) + 1))
      ∧ List.Pairwise (fun a b => a < b) (fractions n false)
      ∧ (∀ x ∈ fractions n false, 0 < x ∧ x < 1)
      ∧ fractions n true = 0 :: (fractions n false ++ [1]))
    ∧ fractions 7 false = [1 / 8, 1 / 4, 3 / 8, 1 / 2, 5 / 8, 3 / 4, 7 / 8]
    ∧ fractions 0 true = [0, 1] := by
  refine ⟨?_, by norm_num [fractions, List.range'], by norm_num [fractions, List.range']⟩
  intro n
  have hpos : (0 : ℚ) < (n : ℚ) + 1 := by positivity
  have hlen : (fractions n false).length = n := by
    rw [fractions_false_eq, List.length_map, List.length_range']
  have helem : ∀ (i : ℕ) (x : ℚ), (fractions n false)[i]? = some x →
      x = ((i : ℚ) + 1) / ((n : ℚ) + 1) := by
    intro i x hx
    rw [fractions_false_eq, List.getElem?_map, range'_getElem? n 1 i] at hx
    by_cases hi : i < n
    · rw [if_pos hi] at hx
      simp only [Option.map_some', Option.some.injEq] at hx
      subst hx
      push_cast
      ring
    · rw [if_neg hi] at hx
      exact Option.noConfusion hx
  refine ⟨hlen, helem, ?_, ?_, ?_⟩
  · rw [List.pairwise_iff_getElem]
    intro i j hi hj hij
    have hxi := helem i _ (List.getElem?_eq_getElem hi)
    have hxj := helem j _ (List.getElem?_eq_getElem hj)
    rw [hxi, hxj, div_lt_div_iff_of_pos_right hpos]
    have hc : (i : ℚ) < (j : ℚ) := by exact_mod_cast hij
    linarith
  · intro x hx
    rw [fractions_false_eq, List.mem_map] at hx
    obtain ⟨i, hi, rfl⟩ := hx
    rw [List.mem_range'_1] at hi
    have h0 : 0 < i := hi.1
    have h1 : i < n + 1 := by omega
    constructor
    · exact div_pos (by exact_mod_cast h0) hpos
    · rw [div_lt_one hpos]
      exact_mod_cast h1
  · unfold fractions
    simp

/-- C9 witness: at `n = 2`, the first element of `fractions 2` is
`(0+1)/(2+1)` and lies strictly inside `(0, 1)`. -/
theorem C9_fractions_witness :
    ((1 : ℚ) / 3 = (((0 : ℕ) : ℚ) + 1) / (((2 : ℕ) : ℚ) + 1))
    ∧ (0 < (1 : ℚ) / 3 ∧ (1 : ℚ) / 3 < 1) :=
  ⟨(C9_fractions.1 2).2.1 0 (1 / 3) (by norm_num [fractions, List.range']),
   (C9_fractions.1 2).2.2.2.1 (1 / 3) (by norm_num [fractions, List.range'])⟩

/-- C5 counterexample: at full lightness the double application of
`contrasting_shade` does not return to the original colour: starting from
`from_fields 1 1 0` (lightness exactly `1`), two shade flips give
lightness `0` — off by the whole unit range, far beyond any
floating-point tolerance (`math.isclose` on the two lightness values is
false). -/
theorem C5_double_contrast_counterexample :
    (Color.from_fields 1 1 0).contrasting_shade.contrasting_shade
      ≠ Color.from_fields 1 1 0
    ∧ (Color.from_fields 1 1 0).contrasting_shade.contrasting_shade.lightness = 0
    ∧ (Color.from_fields 1 1 0).lightness = 1
    ∧ ¬ isclose
        (Color.from_fields 1 1 0).contrasting_shade.contrasting_shade.lightness
        (Color.from_fields 1 1 0).lightness := by
  have h2 : (Color.from_fields 1 1 0).contrasting_shade.contrasting_shade
      = ⟨0, 1, 0⟩ := by
    norm_num [Color.from_fields, Color.contrasting_shade, Color.but_with,
      trim, pymod]
  have h1 : Color.from_fields 1 1 0 = ⟨1, 1, 0⟩ := by
    norm_num [Color.from_fields, trim, pymod]
  rw [h2, h1]
  refine ⟨?_, rfl, rfl, ?_⟩
  · intro hcontra
    have := congrArg Color.lightness hcontra
    norm_num at this
  · norm_num [isclose, abs_of_nonpos, max_def]

/-- C5 (amended): for every colour with the construction invariant
(lightness and saturation in `[0,1]`, hue in `[0,1)`), `contrasting_shade`
is exactly the `but_with` lightness-flip `(lightness + 1/2) % 1` keeping
hue and saturation, `contrasting_hue` is exactly the hue rotation by `1/2`
keeping lightness and saturation, applying `contrasting_hue` twice is the
identity, and applying `contrasting_shade` twice is the identity provided
`lightness ≠ 1` (at lightness `1` it is not — see the counterexample). -/
theorem C5_double_contrast (c : Color)
    (h0l : 0 ≤ c.lightness) (h1l : c.lightness ≤ 1)
    (h0s : 0 ≤ c.saturation) (h1s : c.saturation ≤ 1)
    (h0h : 0 ≤ c.hue) (h1h : c.hue < 1) :
    (c.lightness ≠ 1 → c.contrasting_shade.contrasting_shade = c)
    ∧ c.contrasting_hue.contrasting_hue = c
    ∧ c.contrasting_shade
      = c.but_with (some (pymod (c.lightness + 1 / 2) 1)) none none
    ∧ (c.contrasting_shade.saturation = c.saturation
        ∧ c.contrasting_shade.hue = c.hue
        ∧ c.contrasting_shade.lightness = pymod (c.lightness + 1 / 2) 1)
    ∧ (c.contrasting_hue.lightness = c.lightness
        ∧ c.contrasting_hue.saturation = c.saturation
        ∧ c.contrasting_hue.hue = pymod (c.hue + 1 / 2) 1) := by
  obtain ⟨l, s, h⟩ := c
  dsimp only at h0l h1l h0s h1s h0h h1h ⊢
  have hshade := contrasting_shade_eq (l := l) h0s h1s h0h h1h
  have hshade2 := contrasting_shade_eq (l := pymod (l + 1 / 2) 1) h0s h1s h0h h1h
  have hhue := contrasting_hue_eq (h := h) h0l h1l h0s h1s
  have hp0 : 0 ≤ pymod (h + 1 / 2) 1 := pymod_nonneg _ one_pos
  have hp1 : pymod (h + 1 / 2) 1 < 1 := pymod_lt _ one_pos
  have hhue2 := contrasting_hue_eq (h := pymod (h + 1 / 2) 1) h0l h1l h0s h1s
  refine ⟨?_, ?_, rfl, ?_, ?_⟩
  · intro hne
    have h1l' : l < 1 := lt_of_le_of_ne h1l hne
    rw [hshade, hshade2, pymod_half_half h0l h1l']
  · rw [hhue, hhue2, pymod_half_half h0h h1h]
  · rw [hshade]
    exact ⟨rfl, rfl, rfl⟩
  · rw [hhue]
    exact ⟨rfl, rfl, rfl⟩

/-- C5 witness: a concrete normalized colour with lightness `1/4`. -/
theorem C5_double_contrast_witness :
    Color.contrasting_shade (Color.contrasting_shade ⟨1 / 4, 1 / 2, 1 / 3⟩)
      = ⟨1 / 4, 1 / 2, 1 / 3⟩
    ∧ Color.contrasting_hue (Color.contrasting_hue ⟨1 / 4, 1 / 2, 1 / 3⟩)
      = ⟨1 / 4, 1 / 2, 1 / 3⟩ := by
  have hc := C5_double_contrast ⟨1 / 4, 1 / 2, 1 / 3⟩ (by norm_num) (by norm_num)
    (by norm_num) (by norm_num) (by norm_num) (by norm_num)
  exact ⟨hc.1 (by norm_num), hc.2.1⟩

/-- C2: for every string that, after stripping an optional `#`, consists of
six hex digits (any letter case), and whenever the external conversion
round-trips on the normalised string (the bijection assumption of the
claim), `Color.from_hex` succeeds and reading back `hex` returns the input
lowercased, without the `#`. -/
theorem C2_hex_roundtrip (conv : HsluvConv) (s : List Char)
    (hlen : (stripHash s).length = 6)
    (_hdig : ∀ c ∈ stripHash s, IsHexDigit c)
    (hrt : conv.hsluvToHex (conv.hexToHsluv ('#' :: normHex s)) = '#' :: normHex s) :
    ∃ c, Color.from_hex conv (some s) = Except.ok (some c)
      ∧ Color.hex conv c = normHex s := by
  apply from_hex_expand conv s (normHex s) _ hrt
  apply expandHex_len6
  rw [normHex, List.length_map]
  exact hlen

/-- C2 witness: the mixed-case, `#`-prefixed input `#00AaFf` under the
table conversion. -/
theorem C2_hex_roundtrip_witness :
    ∃ c, Color.from_hex wConv (some ("#00AaFf".toList)) = Except.ok (some c)
      ∧ Color.hex wConv c = "00aaff".toList := by
  have h := C2_hex_roundtrip wConv ("#00AaFf".toList) (by decide) (by decide)
    (by decide)
  rw [show normHex ("#00AaFf".toList) = "00aaff".toList from by decide] at h
  exact h

/-- C3: `from_hex` strips an optional leading `#` and lowercases; a
1-digit input doubles the digit into all three channel pairs, a 2-digit
input replicates the pair as all three channels, a 3-digit input doubles
each digit into its channel, a 6-digit input is taken as-is two digits per
channel, and any other length is an invalid-argument error; in particular
(whenever the external conversion round-trips on the expanded string) the
four shorthand examples evaluate as the claim states. -/
theorem C3_from_hex_grammar (conv : HsluvConv) :
    (∀ s : List Char, normHex ('#' :: s) = s.map lowerChar)
    ∧ (∀ c : Char, expandHex [c] = some [c, c, c, c, c, c])
    ∧ (∀ c1 c2 : Char, expandHex [c1, c2] = some [c1, c2, c1, c2, c1, c2])
    ∧ (∀ c1 c2 c3 : Char, expandHex [c1, c2, c3] = some [c1, c1, c2, c2, c3, c3])
    ∧ (∀ t : List Char, t.length = 6 → expandHex t = some t)
    ∧ (∀ s : List Char, (normHex s).length ∉ ([1, 2, 3, 6] : List ℕ) →
        Color.from_hex conv (some s) = Except.error (normHex s))
    ∧ (conv.hsluvToHex (conv.hexToHsluv ("#333333".toList)) = "#333333".toList →
        ∃ c, Color.from_hex conv (some ("3".toList)) = Except.ok (some c)
          ∧ Color.hex conv c = "333333".toList)
    ∧ (conv.hsluvToHex (conv.hexToHsluv ("#030303".toList)) = "#030303".toList →
        ∃ c, Color.from_hex conv (some ("03".toList)) = Except.ok (some c)
          ∧ Color.hex conv c = "030303".toList)
    ∧ (conv.hsluvToHex (conv.hexToHsluv ("#330033".toList)) = "#330033".toList →
        ∃ c, Color.from_hex conv (some ("303".toList)) = Except.ok (some c)
          ∧ Color.hex conv c = "330033".toList)
    ∧ (conv.hsluvToHex (conv.hexToHsluv ("#00aaff".toList)) = "#00aaff".toList →
        ∃ c, Color.from_hex conv (some ("0af".toList)) = Except.ok (some c)
          ∧ Color.hex conv c = "00aaff".toList) := by
  refine ⟨fun s => rfl, fun c => rfl, fun c1 c2 => rfl, fun c1 c2 c3 => rfl,
    fun t ht => expandHex_len6 ht, ?_, ?_, ?_, ?_, ?_⟩
  · intro s hs
    unfold Color.from_hex HSLuv.from_hex
    dsimp only
    rw [expandHex_badlen hs]
    rfl
  · intro hrt
    exact from_hex_expand conv ("3".toList) ("333333".toList) (by decide) hrt
  · intro hrt
    exact from_hex_expand conv ("03".toList) ("030303".toList) (by decide) hrt
  · intro hrt
    exact from_hex_expand conv ("303".toList) ("330033".toList) (by decide) hrt
  · intro hrt
    exact from_hex_expand conv ("0af".toList) ("00aaff".toList) (by decide) hrt

/-- C3 witness: the four shorthand expansions under the table conversion,
a rejected 4-digit string, and a 6-digit identity expansion. -/
theorem C3_from_hex_grammar_witness :
    (∃ c, Color.from_hex wConv (some ("3".toList)) = Except.ok (some c)
      ∧ Color.hex wConv c = "333333".toList)
    ∧ (∃ c, Color.from_hex wConv (some ("03".toList)) = Except.ok (some c)
      ∧ Color.hex wConv c = "030303".toList)
    ∧ (∃ c, Color.from_hex wConv (some ("303".toList)) = Except.ok (some c)
      ∧ Color.hex wConv c = "330033".toList)
    ∧ (∃ c, Color.from_hex wConv (some ("0af".toList)) = Except.ok (some c)
      ∧ Color.hex wConv c = "00aaff".toList)
    ∧ Color.from_hex wConv (some ("abcd".toList)) = Except.error ("abcd".toList)
    ∧ expandHex ("808303".toList) = some ("808303".toList) := by
  have h := C3_from_hex_grammar wConv
  refine ⟨h.2.2.2.2.2.2.1 (by decide), h.2.2.2.2.2.2.2.1 (by decide),
    h.2.2.2.2.2.2.2.2.1 (by decide), h.2.2.2.2.2.2.2.2.2 (by decide), ?_, ?_⟩
  · have he := h.2.2.2.2.2.1 ("abcd".toList) (by decide)
    rw [show normHex ("abcd".toList) = "abcd".toList from by decide] at he
    exact he
  · exact h.2.2.2.2.1 ("808303".toList) (by decide)

end BasedUtils
